import Mathlib

/-!
Verification of the csv-splitter-app component
(`src/components/csv-splitter/index.tsx`) against its specification.

The relevant TypeScript functions are shallowly embedded as pure Lean
functions.  Rows are kept polymorphic (`α`): the source type is
`string[][]`, but `splitEvenly` never inspects row contents.  The
browser's `Math.random()` is modelled by an arbitrary random source
`rand : Nat → Nat`; at loop index `i` the source's
`Math.floor(Math.random() * (i + 1))` (a uniform value in `[0, i]`) is
modelled as `rand i % (i + 1)`.
-/

namespace CsvSplitter

/-- Swap the elements at positions `i` and `j` of a list
(the `[copy[i], copy[j]] = [copy[j], copy[i]]` step of the source's
Fisher–Yates loop).  Out-of-range indices leave the list unchanged
(the source only calls it in range). -/
def listSwap {α : Type} (l : List α) (i j : Nat) : List α :=
  match l[i]?, l[j]? with
  | some x, some y => (l.set i y).set j x
  | _, _ => l

/-- The Fisher–Yates loop of `splitEvenly`
(`for (let i = copy.length - 1; i > 0; i--)`), counting the current
index `i` down to `1`; at each step the partner index is
`rand i % (i + 1)`, i.e. a value `≤ i`. -/
def fyGo {α : Type} (rand : Nat → Nat) : List α → Nat → List α
  | l, 0 => l
  | l, (i+1) => fyGo rand (listSwap l (i+1) (rand (i+1) % (i+2))) i

/-- The shuffle performed by `splitEvenly` when `shuffleRows` is set:
Fisher–Yates over a copy of the row list. -/
def fisherYates {α : Type} (rand : Nat → Nat) (l : List α) : List α :=
  fyGo rand l (l.length - 1)

/-- The row sequence `splitEvenly` actually chunks: the input rows,
shuffled first when the `shuffleRows` flag is set
(`if (shuffleRows) { ... rows = copy; }`). -/
def shuffledRows {α : Type} (shuffle : Bool) (rand : Nat → Nat)
    (rows : List α) : List α :=
  if shuffle then fisherYates rand rows else rows

/-- The chunking loop of `splitEvenly`
(`for (let p = 0; p < parts; p++) { const extra = p < remainder ? 1 : 0;
const end = start + size + extra; chunks.push(rows.slice(start, end));
start = end; }`).  `n` is the number of loop iterations left, `p` the
current part index and `start` the current slice offset;
`rows.slice(start, end)` is `(rows.drop start).take (end - start)`. -/
def splitGo {α : Type} (rows : List α) (size rem : Nat) :
    Nat → Nat → Nat → List (List α)
  | 0, _, _ => []
  | (n+1), p, start =>
    ((rows.drop start).take (size + if p < rem then 1 else 0)) ::
      splitGo rows size rem n (p+1)
        (start + size + if p < rem then 1 else 0)

/-- The source's `splitEvenly(rows, parts)`: optionally shuffle, then
chunk with `size = Math.floor(rows.length / parts)` and
`remainder = rows.length % parts`. -/
def splitEvenly {α : Type} (shuffle : Bool) (rand : Nat → Nat)
    (rows : List α) (k : Nat) : List (List α) :=
  let rs := shuffledRows shuffle rand rows
  splitGo rs (rs.length / k) (rs.length % k) k 0 0

/-- Total number of rows handed out by `n` iterations of the chunk loop
starting at part index `p`: each iteration contributes
`size + (1 if p < rem else 0)`. -/
def sumSizes (size rem : Nat) : Nat → Nat → Nat
  | 0, _ => 0
  | (n+1), p => (size + if p < rem then 1 else 0) + sumSizes size rem n (p+1)

/-- The intended chunk lengths of `n` iterations of the chunk loop
starting at part index `p`. -/
def sizeList (size rem : Nat) : Nat → Nat → List Nat
  | 0, _ => []
  | (n+1), p => (size + if p < rem then 1 else 0) :: sizeList size rem n (p+1)

/-! ### Delimiter sniffer (`guessDelimiter`) -/

/-- Number of literal occurrences of the character `c` in the sampled
window, modelling
`(sample.match(new RegExp(escapeRegex(d), 'g')) || []).length`:
`escapeRegex` makes the pattern literal, so the global match count is
exactly the occurrence count of the single character. -/
def countChar (c : Char) (s : List Char) : Nat :=
  (s.filter (fun x => x == c)).length

/-- The fixed candidate set of `guessDelimiter`, in declared order. -/
def delimCandidates : List Char := [',', '\t', ';', '|']

/-- The source's `guessDelimiter` fold:
`let best = ','; let bestCount = -1; for (const d of candidates) if
(count > bestCount) { best = d; bestCount = count; }`.
The 64 KiB sampling (`file.slice(0, 64 * 1024)`) is modelled by taking
`s` to be the sampled window itself. -/
def guessDelimiter (s : List Char) : Char :=
  (delimCandidates.foldl
    (fun acc d =>
      if (countChar d s : Int) > acc.2 then (d, (countChar d s : Int)) else acc)
    (',', (-1 : Int))).1

/-! ### Recipient e-mail validation and dispatch (`sendPart`) -/

/-- JavaScript's `\s` character class (also the set stripped by
`String.prototype.trim`): ASCII whitespace, NBSP, the Unicode space
separators, line/paragraph separators and the BOM. -/
def isJsSpace (c : Char) : Bool :=
  c == ' ' || c == '\t' || c == '\n' || c == '\r' ||
  c == '\u000B' || c == '\u000C' || c == '\u00A0' || c == '\u1680' ||
  (decide ('\u2000' ≤ c) && decide (c ≤ '\u200A')) ||
  c == '\u2028' || c == '\u2029' || c == '\u202F' || c == '\u205F' ||
  c == '\u3000' || c == '\uFEFF'

/-- `String.prototype.trim`: strip leading and trailing whitespace. -/
def jsTrim (s : List Char) : List Char :=
  ((s.dropWhile isJsSpace).reverse.dropWhile isJsSpace).reverse

/-- A character matched by `[^@\s]`. -/
def isEmailChar (c : Char) : Bool := !(c == '@') && !isJsSpace c

/-- Full-match semantics of the source's e-mail test
`/^[^@\s]+@[^@\s]+\.[^@\s]+$/.test(email)`: the string decomposes as
`A ++ '@' ++ D` where `A` is a nonempty run of `[^@\s]` characters and
`D = B ++ '.' ++ C` with `B`, `C` nonempty runs of `[^@\s]`.  Since
`'.'` itself matches `[^@\s]`, this holds exactly when some position
`i` carries the (unique) `'@'` with a nonempty all-`[^@\s]` prefix
before it, everything after it is `[^@\s]`, and some `'.'` occurs
after the `'@'` at an interior position of that suffix. -/
def matchesEmailRegex (s : List Char) : Bool :=
  (List.range s.length).any (fun i =>
    (s[i]? == some '@') && decide (0 < i) && (s.take i).all isEmailChar &&
      ((s.drop (i+1)).all isEmailChar &&
        (List.range (s.drop (i+1)).length).any (fun j =>
          ((s.drop (i+1))[j]? == some '.') && decide (0 < j) &&
            decide (j + 1 < (s.drop (i+1)).length))))

/-- Outcome of the external transport call
(`fetch('/api/send-split', ...)`): a 2xx response, a non-2xx response
with its body text, or a thrown exception with its optional message
(e.g. a network error). -/
inductive TransportResult : Type where
  | ok : TransportResult
  | httpError : String → TransportResult
  | thrown : Option String → TransportResult
deriving DecidableEq

/-- The per-part state of the component's `SplitPart` record that the
dispatch logic touches.  `email` models the `email` input field (a
JavaScript string, embedded as its character list); `error : none`
models both `null` and `undefined`. -/
structure SplitPart : Type where
  name : String
  email : List Char
  sending : Bool
  sentOk : Bool
  error : Option String
deriving DecidableEq

/-- Point update of a list, modelling the source's
`ps.map((p, i) => (i === index ? { ...p, ... } : p))` pattern. -/
def updateAt {α : Type} (i : Nat) (f : α → α) : List α → List α
  | [] => []
  | p :: ps =>
    match i with
    | 0 => f p :: ps
    | (n+1) => p :: updateAt n f ps

/-- The validation message set by `sendPart` on a bad recipient. -/
def emailInvalidMsg : String := "Enter a valid email address."

/-- The failure reason recorded by `sendPart`'s `catch` block.  For a
non-ok response the code throws `new Error(msg || 'Failed to send
email')` with `msg` the response body text, and the `catch` records
`e?.message || 'Error'`; for an exception thrown by `fetch` itself it
records the exception's message, or `'Error'` when absent or empty. -/
def failureMsg : TransportResult → Option String
  | TransportResult.ok => none
  | TransportResult.httpError body =>
      some (if body = "" then "Failed to send email" else body)
  | TransportResult.thrown m =>
      some (match m with
        | some msg => if msg = "" then "Error" else msg
        | none => "Error")

/-- The source's `sendPart(index)`, run to completion against a given
transport outcome `tr`.  Returns the final `parts` state together with
a flag recording whether the external transport was contacted.
Mirrors the source: missing part → return; invalid trimmed e-mail →
record the validation error and return without contacting the
transport; otherwise mark `sending`, contact the transport, and record
the outcome for that part only. -/
def sendPart (parts : List SplitPart) (index : Nat) (tr : TransportResult) :
    List SplitPart × Bool :=
  match parts[index]? with
  | none => (parts, false)
  | some part =>
    if matchesEmailRegex (jsTrim part.email) then
      let ps1 := updateAt index
        (fun p => { p with sending := true, sentOk := false, error := none })
        parts
      match tr with
      | TransportResult.ok =>
          (updateAt index
            (fun p => { p with sending := false, sentOk := true }) ps1, true)
      | TransportResult.httpError body =>
          (updateAt index
            (fun p =>
              { p with
                  sending := false
                  sentOk := false
                  error := failureMsg (TransportResult.httpError body) })
            ps1, true)
      | TransportResult.thrown m =>
          (updateAt index
            (fun p =>
              { p with
                  sending := false
                  sentOk := false
                  error := failureMsg (TransportResult.thrown m) })
            ps1, true)
    else
      (updateAt index (fun p => { p with error := some emailInvalidMsg })
        parts, false)

/-- Whether the Send button for part `i` is clickable: the row exists
and the button is not disabled (`disabled={p.sending}`). -/
def sendEnabled (parts : List SplitPart) (i : Nat) : Bool :=
  match parts[i]? with
  | some p => !p.sending
  | none => false

/-- A click on the Send button of row `i`
(`onClick={() => sendPart(idx)}` guarded by `disabled={p.sending}`):
the dispatch runs only when the button is enabled. -/
def clickSend (parts : List SplitPart) (i : Nat) (tr : TransportResult) :
    List SplitPart × Bool :=
  if sendEnabled parts i then sendPart parts i tr else (parts, false)

/-! ### Part registry and object-URL lifecycle -/

/-- The object-URL bookkeeping of the component.  Handles minted by
`URL.createObjectURL` are modelled as consecutive naturals drawn from
the counter `next`; `live` is the set of handles not yet passed to
`URL.revokeObjectURL`, and `parts` the handles of the currently
registered parts, in order. -/
structure RegState : Type where
  live : List Nat
  parts : List Nat
  next : Nat
deriving DecidableEq

/-- Installing a new part set, as in `handleSplit`: mint a fresh handle
per chunk (`URL.createObjectURL(blob)`), then
`setParts(prev => { prev.forEach(p => URL.revokeObjectURL(p.url));
return newParts; })` — every previous part's handle is revoked before
the new set is installed. -/
def createParts (k : Nat) (s : RegState) : RegState :=
  { live := s.live.filter (fun h => !s.parts.contains h) ++
      List.range' s.next k,
    parts := List.range' s.next k,
    next := s.next + k }

/-- Emptying the registry, as in `resetAll` and in the file-replacement
handlers (`onFileChange`, `handleDrop`):
`setParts(prev => { prev.forEach(p => URL.revokeObjectURL(p.url));
return []; })`. -/
def clearParts (s : RegState) : RegState :=
  { live := s.live.filter (fun h => !s.parts.contains h),
    parts := [],
    next := s.next }

/-- The registry invariant: the live handles are exactly the handles of
the currently registered parts, and all registered handles were minted
below the fresh-handle counter. -/
def RegInv (s : RegState) : Prop :=
  s.live = s.parts ∧ ∀ h ∈ s.parts, h < s.next

/-! ### Split-button validation (`handleSplit`) -/

/-- The result of `Number(agents)` on the part-count input field:
either a (possibly non-positive) integer, or a non-integer value (NaN
or fractional), which `Number.isInteger` rejects. -/
inductive AgentsInput : Type where
  | intVal : Int → AgentsInput
  | nonInt : AgentsInput
deriving DecidableEq

/-- Error set by `handleSplit` when the part count is invalid. -/
def agentsErrorMsg : String := "Agents must be a positive integer."

/-- Error set by `handleSplit` when no file is selected. -/
def noFileMsg : String := "Please choose a CSV file."

/-- Status set by `handleSplit` on success. -/
def splitDoneMsg : String :=
  "Done! Files are ready below. You can download individually, send via email, or download all as ZIP."

/-- The control flow of the source's `handleSplit` around the part
registry: reject when no file is chosen; reject when
`!Number.isInteger(partsCount) || partsCount <= 0` with the validation
message, leaving the registered parts untouched; otherwise partition
and install the new part set.  The returned flag records whether
partitioning occurred.  Parsing is abstracted (the claim settled
against this model concerns only the validation step). -/
def handleSplitM (hasFile : Bool) (agents : AgentsInput) (s : RegState) :
    RegState × String × Bool :=
  if hasFile = false then (s, noFileMsg, false)
  else
    match agents with
    | AgentsInput.nonInt => (s, agentsErrorMsg, false)
    | AgentsInput.intVal n =>
      if n ≤ 0 then (s, agentsErrorMsg, false)
      else (createParts n.toNat s, splitDoneMsg, true)

/-! ### Permutation facts about the shuffle -/

theorem set_cons_perm {α : Type} (a y : α) (t : List α) :
    ∀ m : Nat, t[m]? = some y → List.Perm (y :: t.set m a) (a :: t) := by
  induction t with
  | nil => intro m h; simp at h
  | cons b t ih =>
    intro m h
    cases m with
    | zero =>
      simp at h
      subst h
      simpa using List.Perm.swap a b t
    | succ n =>
      simp at h
      have hperm := ih n h
      have h1 : List.Perm (y :: b :: t.set n a) (b :: y :: t.set n a) :=
        List.Perm.swap b y _
      have h2 : List.Perm (b :: y :: t.set n a) (b :: a :: t) := hperm.cons b
      have h3 : List.Perm (b :: a :: t) (a :: b :: t) := List.Perm.swap a b t
      simpa using (h1.trans h2).trans h3

theorem listSwap_perm {α : Type} :
    ∀ (l : List α) (i j : Nat), List.Perm (listSwap l i j) l := by
  intro l
  induction l with
  | nil => intro i j; simp [listSwap]
  | cons a t ih =>
    intro i j
    unfold listSwap
    cases i with
    | zero =>
      cases j with
      | zero => simp
      | succ m =>
        cases hm : t[m]? with
        | none => simp [hm]
        | some y =>
          simp only [List.getElem?_cons_zero, List.getElem?_cons_succ, hm,
            List.set_cons_zero, List.set_cons_succ]
          exact set_cons_perm a y t m hm
    | succ n =>
      cases j with
      | zero =>
        cases hn : t[n]? with
        | none => simp [hn]
        | some x =>
          simp only [List.getElem?_cons_succ, List.getElem?_cons_zero, hn,
            List.set_cons_succ, List.set_cons_zero]
          exact set_cons_perm a x t n hn
      | succ m =>
        simp only [List.getElem?_cons_succ, List.set_cons_succ]
        have := ih n m
        unfold listSwap at this
        cases hn : t[n]? with
        | none => simp [hn] at this ⊢
        | some x =>
          cases hm : t[m]? with
          | none => simp [hn, hm] at this ⊢
          | some y =>
            simp only [hn, hm] at this ⊢
            exact this.cons a

theorem fyGo_perm {α : Type} (rand : Nat → Nat) :
    ∀ (i : Nat) (l : List α), List.Perm (fyGo rand l i) l := by
  intro i
  induction i with
  | zero => intro l; exact List.Perm.refl l
  | succ n ih =>
    intro l
    exact (ih _).trans (listSwap_perm l (n+1) (rand (n+1) % (n+2)))

theorem fisherYates_perm {α : Type} (rand : Nat → Nat) (l : List α) :
    List.Perm (fisherYates rand l) l :=
  fyGo_perm rand (l.length - 1) l

theorem shuffledRows_perm {α : Type} (shuffle : Bool) (rand : Nat → Nat)
    (rows : List α) : List.Perm (shuffledRows shuffle rand rows) rows := by
  unfold shuffledRows
  cases shuffle with
  | false => simp
  | true => simpa using fisherYates_perm rand rows

theorem shuffledRows_length {α : Type} (shuffle : Bool) (rand : Nat → Nat)
    (rows : List α) :
    (shuffledRows shuffle rand rows).length = rows.length :=
  (shuffledRows_perm shuffle rand rows).length_eq

/-! ### Structure of the chunk loop -/

theorem splitGo_length {α : Type} (rows : List α) (size rem : Nat) :
    ∀ (n p start : Nat), (splitGo rows size rem n p start).length = n := by
  intro n
  induction n with
  | zero => intro p start; simp [splitGo]
  | succ m ih => intro p start; simp [splitGo, ih]

theorem sumSizes_closed (size rem : Nat) :
    ∀ (n p : Nat),
      sumSizes size rem n p = n * size + (min rem (p + n) - min rem p) := by
  intro n
  induction n with
  | zero => intro p; simp [sumSizes]
  | succ m ih =>
    intro p
    rw [sumSizes, ih (p+1), Nat.succ_mul]
    rcases Nat.lt_or_ge p rem with hp | hp
    · simp only [if_pos hp]
      have h1 : min rem p = p := Nat.min_eq_right hp.le
      have h2 : min rem (p + 1) = p + 1 := Nat.min_eq_right hp
      rw [h1, h2]
      have h3 : p + 1 + m = p + (m + 1) := by omega
      rw [h3]
      have h4 : p ≤ min rem (p + (m + 1)) := by
        have := Nat.le_min.2 ⟨hp.le, Nat.le_add_right p (m+1)⟩
        omega
      omega
    · simp only [if_neg (Nat.not_lt.2 hp)]
      have h1 : min rem p = rem := Nat.min_eq_left hp
      have h2 : min rem (p + 1) = rem := Nat.min_eq_left (by omega)
      have h3 : min rem (p + 1 + m) = rem := Nat.min_eq_left (by omega)
      have h4 : min rem (p + (m + 1)) = rem := Nat.min_eq_left (by omega)
      rw [h1, h2, h3, h4]
      omega

theorem splitGo_flatten {α : Type} (rows : List α) (size rem : Nat) :
    ∀ (n p start : Nat),
      (splitGo rows size rem n p start).flatten ++
          rows.drop (start + sumSizes size rem n p) = rows.drop start := by
  intro n
  induction n with
  | zero => intro p start; simp [splitGo, sumSizes]
  | succ m ih =>
    intro p start
    rw [splitGo, sumSizes, List.flatten_cons, List.append_assoc]
    have harith : start + (size + (if p < rem then 1 else 0) +
        sumSizes size rem m (p + 1)) =
        (start + size + (if p < rem then 1 else 0)) +
          sumSizes size rem m (p + 1) := by omega
    rw [harith, ih (p+1) (start + size + (if p < rem then 1 else 0))]
    have hdrop : rows.drop (start + size + (if p < rem then 1 else 0)) =
        (rows.drop start).drop (size + (if p < rem then 1 else 0)) := by
      rw [List.drop_drop]
      congr 1
      omega
    rw [hdrop, List.take_append_drop]

theorem splitGo_getElem {α : Type} (rows : List α) (size rem : Nat) :
    ∀ (n q p start : Nat), q < n →
      (splitGo rows size rem n p start)[q]? =
        some ((rows.drop (start + sumSizes size rem q p)).take
          (size + if p + q < rem then 1 else 0)) := by
  intro n
  induction n with
  | zero => intro q p start hq; omega
  | succ m ih =>
    intro q p start hq
    cases q with
    | zero => simp [splitGo, sumSizes]
    | succ q' =>
      rw [splitGo, List.getElem?_cons_succ,
        ih q' (p+1) _ (by omega), sumSizes]
      have h1 : start + size + (if p < rem then 1 else 0) +
          sumSizes size rem q' (p + 1) =
          start + (size + (if p < rem then 1 else 0) +
            sumSizes size rem q' (p + 1)) := by omega
      have h2 : p + 1 + q' = p + (q' + 1) := by omega
      rw [h1, h2]

theorem sizeList_getElem (size rem : Nat) :
    ∀ (n p q : Nat), q < n →
      (sizeList size rem n p)[q]? =
        some (size + if p + q < rem then 1 else 0) := by
  intro n
  induction n with
  | zero => intro p q hq; omega
  | succ m ih =>
    intro p q hq
    cases q with
    | zero => simp [sizeList]
    | succ q' =>
      rw [sizeList, List.getElem?_cons_succ, ih (p+1) q' (by omega)]
      have h2 : p + 1 + q' = p + (q' + 1) := by omega
      rw [h2]

theorem splitGo_map_length {α : Type} (rows : List α) (size rem : Nat) :
    ∀ (n p start : Nat),
      start + sumSizes size rem n p ≤ rows.length →
      (splitGo rows size rem n p start).map List.length =
        sizeList size rem n p := by
  intro n
  induction n with
  | zero => intro p start _; simp [splitGo, sizeList]
  | succ m ih =>
    intro p start h
    rw [sumSizes] at h
    rw [splitGo, sizeList, List.map_cons]
    have h1 : ((rows.drop start).take
        (size + if p < rem then 1 else 0)).length =
        size + if p < rem then 1 else 0 := by
      rw [List.length_take, List.length_drop]
      omega
    rw [h1, ih (p+1) _ (by omega)]

/-- For `1 ≤ k`, the chunk loop hands out exactly `rows.length` rows in
total: `k * (N / k) + N % k = N`. -/
theorem sumSizes_total {α : Type} (rows : List α) (k : Nat) (hk : 1 ≤ k) :
    sumSizes (rows.length / k) (rows.length % k) k 0 = rows.length := by
  rw [sumSizes_closed]
  have hlt : rows.length % k < k := Nat.mod_lt _ (by omega)
  have hmin0 : min (rows.length % k) 0 = 0 := Nat.min_eq_right (Nat.zero_le _)
  have hmink : min (rows.length % k) (0 + k) = rows.length % k := by
    rw [Nat.zero_add]; exact Nat.min_eq_left hlt.le
  rw [hmin0, hmink]
  have := Nat.div_add_mod rows.length k
  omega

/-! ### Top-level facts about `splitEvenly` -/

theorem splitEvenly_length {α : Type} (shuffle : Bool) (rand : Nat → Nat)
    (rows : List α) (k : Nat) :
    (splitEvenly shuffle rand rows k).length = k := by
  simp [splitEvenly, splitGo_length]

theorem splitEvenly_flatten {α : Type} (shuffle : Bool) (rand : Nat → Nat)
    (rows : List α) (k : Nat) (hk : 1 ≤ k) :
    (splitEvenly shuffle rand rows k).flatten =
      shuffledRows shuffle rand rows := by
  have h := splitGo_flatten (shuffledRows shuffle rand rows)
    ((shuffledRows shuffle rand rows).length / k)
    ((shuffledRows shuffle rand rows).length % k) k 0 0
  rw [Nat.zero_add, sumSizes_total _ k hk, List.drop_length,
    List.append_nil, List.drop_zero] at h
  simpa [splitEvenly] using h

theorem splitEvenly_map_length {α : Type} (shuffle : Bool) (rand : Nat → Nat)
    (rows : List α) (k : Nat) (hk : 1 ≤ k) :
    (splitEvenly shuffle rand rows k).map List.length =
      sizeList (rows.length / k) (rows.length % k) k 0 := by
  simp only [splitEvenly]
  rw [shuffledRows_length]
  apply splitGo_map_length
  rw [Nat.zero_add, sumSizes_total rows k hk, shuffledRows_length]

theorem splitEvenly_getElem {α : Type} (shuffle : Bool) (rand : Nat → Nat)
    (rows : List α) (k q : Nat) (hq : q < k) :
    (splitEvenly shuffle rand rows k)[q]? =
      some (((shuffledRows shuffle rand rows).drop
        (q * (rows.length / k) + min q (rows.length % k))).take
        (rows.length / k + if q < rows.length % k then 1 else 0)) := by
  simp only [splitEvenly]
  rw [shuffledRows_length,
    splitGo_getElem (shuffledRows shuffle rand rows)
      (rows.length / k) (rows.length % k) k q 0 0 hq]
  have harith : 0 + sumSizes (rows.length / k) (rows.length % k) q 0 =
      q * (rows.length / k) + min q (rows.length % k) := by
    rw [sumSizes_closed]
    generalize q * (rows.length / k) = m
    omega
  have hcond : 0 + q = q := Nat.zero_add q
  rw [harith, hcond]

/-! ### Point updates of the parts list -/

theorem updateAt_getElem_self {α : Type} (f : α → α) :
    ∀ (l : List α) (i : Nat) (x : α), l[i]? = some x →
      (updateAt i f l)[i]? = some (f x) := by
  intro l
  induction l with
  | nil => intro i x h; simp at h
  | cons p ps ih =>
    intro i x h
    cases i with
    | zero => simp at h; subst h; simp [updateAt]
    | succ n =>
      simp only [List.getElem?_cons_succ] at h
      simp only [updateAt, List.getElem?_cons_succ]
      exact ih n x h

theorem updateAt_getElem_ne {α : Type} (f : α → α) :
    ∀ (l : List α) (i j : Nat), j ≠ i →
      (updateAt i f l)[j]? = l[j]? := by
  intro l
  induction l with
  | nil => intro i j _; simp [updateAt]
  | cons p ps ih =>
    intro i j hne
    cases i with
    | zero =>
      cases j with
      | zero => exact absurd rfl hne
      | succ m => simp [updateAt]
    | succ n =>
      cases j with
      | zero => simp [updateAt]
      | succ m =>
        simp only [updateAt, List.getElem?_cons_succ]
        exact ih n m (by omega)

/-! ### Registry helper facts -/

/-- Revoking every registered handle empties the live set when the live
set is exactly the registered handles. -/
theorem filter_not_contains_self (l : List Nat) :
    l.filter (fun h => !l.contains h) = [] := by
  rw [List.filter_eq_nil_iff]
  intro a ha
  simp [ha]

theorem mem_range'_bounds {x s n : Nat} (h : x ∈ List.range' s n) :
    s ≤ x ∧ x < s + n := by
  rw [List.mem_range'] at h
  obtain ⟨i, hi, rfl⟩ := h
  omega

/-! ### Claim theorems -/

/-- C1: for every row sequence `rows` (length `N ≥ 0`) and every part
count `k ≥ 1`, `splitEvenly` returns exactly `k` parts, the part row
counts sum to `N`, the concatenation of the parts is a permutation of
`rows`, and when the shuffle flag is `false` the concatenation is
`rows` itself in the original order.  (With the flag set the
concatenation is the Fisher–Yates permutation determined by the random
source, so order preservation is guaranteed exactly in the
`shuffle = false` case.) -/
theorem claimC1_splitEvenly_partition {α : Type} (rows : List α) (k : Nat)
    (hk : 1 ≤ k) (shuffle : Bool) (rand : Nat → Nat) :
    (splitEvenly shuffle rand rows k).length = k ∧
    ((splitEvenly shuffle rand rows k).map List.length).sum = rows.length ∧
    List.Perm (splitEvenly shuffle rand rows k).flatten rows ∧
    (shuffle = false → (splitEvenly shuffle rand rows k).flatten = rows) := by
  refine ⟨splitEvenly_length shuffle rand rows k, ?_, ?_, ?_⟩
  · rw [← List.length_flatten, splitEvenly_flatten shuffle rand rows k hk,
      shuffledRows_length]
  · rw [splitEvenly_flatten shuffle rand rows k hk]
    exact shuffledRows_perm shuffle rand rows
  · intro hs
    rw [splitEvenly_flatten shuffle rand rows k hk, hs, shuffledRows,
      if_neg (by simp)]

theorem claimC1_witness :
    1 ≤ 2 ∧
    (splitEvenly false (fun _ => 0) ([10, 20, 30] : List Nat) 2).flatten =
      [10, 20, 30] :=
  ⟨by decide,
    (claimC1_splitEvenly_partition ([10, 20, 30] : List Nat) 2 (by decide)
      false (fun _ => 0)).2.2.2 rfl⟩

/-- C2: under the code's (only) distribution policy, for `k ≥ 1` the
`q`-th part is the contiguous slice of the (possibly shuffled) row
sequence starting at `q·⌊N/k⌋ + min q (N mod k)`; the first `N mod k`
parts have `⌊N/k⌋ + 1` rows, the remaining parts have `⌊N/k⌋` rows, and
when `k > N` every part with index `≥ N` is empty (not an error:
`splitEvenly` is total). -/
theorem claimC2_policyA_sizes {α : Type} (rows : List α) (k : Nat)
    (hk : 1 ≤ k) (shuffle : Bool) (rand : Nat → Nat) :
    (∀ q, q < k → (splitEvenly shuffle rand rows k)[q]? =
        some (((shuffledRows shuffle rand rows).drop
          (q * (rows.length / k) + min q (rows.length % k))).take
          (rows.length / k + if q < rows.length % k then 1 else 0))) ∧
    (∀ q, q < rows.length % k →
        ((splitEvenly shuffle rand rows k)[q]?).map List.length =
          some (rows.length / k + 1)) ∧
    (∀ q, rows.length % k ≤ q → q < k →
        ((splitEvenly shuffle rand rows k)[q]?).map List.length =
          some (rows.length / k)) ∧
    (∀ q, rows.length ≤ q → q < k →
        (splitEvenly shuffle rand rows k)[q]? = some []) := by
  have hmod : rows.length % k < k := Nat.mod_lt _ (by omega)
  have hmap : ∀ q, q < k →
      ((splitEvenly shuffle rand rows k)[q]?).map List.length =
        some (rows.length / k + if q < rows.length % k then 1 else 0) := by
    intro q hq
    rw [← List.getElem?_map, splitEvenly_map_length shuffle rand rows k hk,
      sizeList_getElem _ _ k 0 q hq, Nat.zero_add]
  refine ⟨fun q hq => splitEvenly_getElem shuffle rand rows k q hq,
    ?_, ?_, ?_⟩
  · intro q hq
    rw [hmap q (by omega), if_pos hq]
  · intro q hq1 hq2
    rw [hmap q hq2, if_neg (by omega), Nat.add_zero]
  · intro q hq1 hq2
    have hNk : rows.length < k := by omega
    have hdiv : rows.length / k = 0 := Nat.div_eq_of_lt hNk
    have hmod2 : rows.length % k = rows.length := Nat.mod_eq_of_lt hNk
    rw [splitEvenly_getElem shuffle rand rows k q hq2, hdiv, hmod2,
      if_neg (by omega)]
    simp

theorem claimC2_witness :
    1 ≤ 3 ∧ 0 < ([0, 1, 2, 3, 4, 5, 6] : List Nat).length % 3 ∧
    ((splitEvenly false (fun _ => 0) ([0, 1, 2, 3, 4, 5, 6] : List Nat)
        3)[0]?).map List.length =
      some (([0, 1, 2, 3, 4, 5, 6] : List Nat).length / 3 + 1) :=
  ⟨by decide, by decide,
    (claimC2_policyA_sizes ([0, 1, 2, 3, 4, 5, 6] : List Nat) 3 (by decide)
      false (fun _ => 0)).2.1 0 (by decide)⟩

/-- C3 counterexample: the code has no `lastPartSmaller` policy input at
all — `splitEvenly(rows, parts)` takes only the rows, the part count
and the shuffle flag — and splitting 7 rows into `k = 3` parts yields
part sizes `[3, 2, 2]` for both settings of the only flag that exists,
never the `[2, 2, 3]` the claim requires. -/
theorem claimC3_counterexample :
    ((splitEvenly false (fun _ => 0) ([0, 1, 2, 3, 4, 5, 6] : List Nat)
        3).map List.length = [3, 2, 2] ∧
      (splitEvenly true (fun _ => 0) ([0, 1, 2, 3, 4, 5, 6] : List Nat)
        3).map List.length = [3, 2, 2]) ∧
    ¬ ((splitEvenly false (fun _ => 0) ([0, 1, 2, 3, 4, 5, 6] : List Nat)
        3).map List.length = [2, 2, 3]) := by
  decide

/-- C3 (amended): the partitioning operation has no `lastPartSmaller`
mode; the remainder always goes to the first `N mod k` parts, so for
every `k ≥ 1` the last part receives exactly `⌊N/k⌋` rows (not
`N − ⌊N/k⌋·(k−1)`), and splitting 7 rows into `k = 3` parts yields part
sizes `[3, 2, 2]`. -/
theorem claimC3_amended_last_part {α : Type} (rows : List α) (k : Nat)
    (hk : 1 ≤ k) (shuffle : Bool) (rand : Nat → Nat) :
    ((splitEvenly shuffle rand rows k)[k - 1]?).map List.length =
      some (rows.length / k) := by
  have hmod : rows.length % k < k := Nat.mod_lt _ (by omega)
  rw [← List.getElem?_map, splitEvenly_map_length shuffle rand rows k hk,
    sizeList_getElem _ _ k 0 (k - 1) (by omega), Nat.zero_add,
    if_neg (by omega), Nat.add_zero]

theorem claimC3_witness :
    1 ≤ 3 ∧
    ((splitEvenly false (fun _ => 0) ([0, 1, 2, 3, 4, 5, 6] : List Nat)
        3)[3 - 1]?).map List.length =
      some (([0, 1, 2, 3, 4, 5, 6] : List Nat).length / 3) :=
  ⟨by decide,
    claimC3_amended_last_part ([0, 1, 2, 3, 4, 5, 6] : List Nat) 3
      (by decide) false (fun _ => 0)⟩

theorem createParts_inv (k : Nat) (s : RegState) (h : RegInv s) :
    RegInv (createParts k s) := by
  obtain ⟨h1, h2⟩ := h
  constructor
  · simp only [createParts]
    rw [h1, filter_not_contains_self, List.nil_append]
  · intro x hx
    simp only [createParts] at hx ⊢
    have := mem_range'_bounds hx
    omega

theorem clearParts_inv (s : RegState) (h : RegInv s) :
    RegInv (clearParts s) := by
  obtain ⟨h1, h2⟩ := h
  constructor
  · simp only [clearParts]
    rw [h1, filter_not_contains_self]
  · intro x hx
    simp [clearParts] at hx

/-- C4: the registry invariant — the live object URLs are exactly the
URLs of the currently registered parts — is preserved by installing a
new part set (`handleSplit`) and by every emptying transition
(`resetAll`, file replacement), because each such transition first
revokes every previously registered part's URL; consequently, after
two `createParts` calls in succession none of the first call's handles
is still live, and exactly the second call's handles are. -/
theorem claimC4_registry_handles (s : RegState) (k k1 k2 : Nat)
    (hInv : RegInv s) :
    RegInv (createParts k s) ∧ RegInv (clearParts s) ∧
    (clearParts s).live = [] ∧ (clearParts s).parts = [] ∧
    (∀ h1 ∈ (createParts k1 s).parts,
        h1 ∉ (createParts k2 (createParts k1 s)).live) ∧
    (createParts k2 (createParts k1 s)).live =
      (createParts k2 (createParts k1 s)).parts := by
  have hs1 : RegInv (createParts k1 s) := createParts_inv k1 s hInv
  have hs2 : RegInv (createParts k2 (createParts k1 s)) :=
    createParts_inv k2 _ hs1
  refine ⟨createParts_inv k s hInv, clearParts_inv s hInv, ?_, rfl, ?_,
    hs2.1⟩
  · simp only [clearParts]
    rw [hInv.1, filter_not_contains_self]
  · intro h1 hmem hlive
    have hlt : h1 < (createParts k1 s).next := hs1.2 h1 hmem
    rw [hs2.1] at hlive
    have hge := (mem_range'_bounds hlive).1
    omega

theorem claimC4_witness :
    RegInv (RegState.mk [] [] 0) ∧
    (createParts 3 (createParts 2 (RegState.mk [] [] 0))).live =
      (createParts 3 (createParts 2 (RegState.mk [] [] 0))).parts :=
  ⟨⟨rfl, by simp⟩,
    (claimC4_registry_handles (RegState.mk [] [] 0) 1 2 3
      ⟨rfl, by simp⟩).2.2.2.2.2⟩

/-- C5: when the transport returns a non-2xx response or throws during
dispatch of a part with a valid recipient, that part ends `Failed`:
`sending = false`, `sentOk = false` and `error` set to the response
body text (or the generic fallback when the body is empty / the thrown
message is absent), the transport having been contacted; every other
part's state is untouched, the failed part is immediately retryable
(its Send button is enabled again) and every other part's
dispatchability is unchanged. -/
theorem claimC5_transport_failure (parts : List SplitPart) (index : Nat)
    (part : SplitPart) (tr : TransportResult)
    (hpart : parts[index]? = some part)
    (hvalid : matchesEmailRegex (jsTrim part.email) = true)
    (hfail : tr ≠ TransportResult.ok) :
    (sendPart parts index tr).1[index]? =
      some { part with
              sending := false
              sentOk := false
              error := failureMsg tr } ∧
    (∀ j, j ≠ index → (sendPart parts index tr).1[j]? = parts[j]?) ∧
    (sendPart parts index tr).2 = true ∧
    sendEnabled (sendPart parts index tr).1 index = true ∧
    (∀ j, j ≠ index →
        sendEnabled (sendPart parts index tr).1 j = sendEnabled parts j) := by
  have hself : ∀ (f g : SplitPart → SplitPart),
      (updateAt index g (updateAt index f parts))[index]? = some (g (f part)) :=
    fun f g => updateAt_getElem_self g _ index (f part)
      (updateAt_getElem_self f _ index part hpart)
  have hother : ∀ (f g : SplitPart → SplitPart) (j : Nat), j ≠ index →
      (updateAt index g (updateAt index f parts))[j]? = parts[j]? := by
    intro f g j hj
    rw [updateAt_getElem_ne g _ index j hj, updateAt_getElem_ne f _ index j hj]
  cases tr with
  | ok => exact absurd rfl hfail
  | httpError body =>
    simp only [sendPart, hpart, hvalid, if_true]
    refine ⟨by rw [hself], fun j hj => hother _ _ j hj, trivial, ?_, ?_⟩
    · simp only [sendEnabled]
      rw [hself]
      rfl
    · intro j hj
      simp only [sendEnabled]
      rw [hother _ _ j hj]
  | thrown m =>
    simp only [sendPart, hpart, hvalid, if_true]
    refine ⟨by rw [hself], fun j hj => hother _ _ j hj, trivial, ?_, ?_⟩
    · simp only [sendEnabled]
      rw [hself]
      rfl
    · intro j hj
      simp only [sendEnabled]
      rw [hother _ _ j hj]

theorem claimC5_witness :
    ([(⟨"f-part1.csv", "a@b.c".toList, false, false, none⟩ : SplitPart),
        ⟨"f-part2.csv", "x@y.z".toList, false, false, none⟩] :
        List SplitPart)[0]? =
      some ⟨"f-part1.csv", "a@b.c".toList, false, false, none⟩ ∧
    matchesEmailRegex (jsTrim ("a@b.c".toList)) = true ∧
    (sendPart
        [⟨"f-part1.csv", "a@b.c".toList, false, false, none⟩,
          ⟨"f-part2.csv", "x@y.z".toList, false, false, none⟩] 0
        (TransportResult.httpError "Bad gateway")).1[1]? =
      some ⟨"f-part2.csv", "x@y.z".toList, false, false, none⟩ :=
  ⟨by decide, by decide,
    (claimC5_transport_failure
      [⟨"f-part1.csv", "a@b.c".toList, false, false, none⟩,
        ⟨"f-part2.csv", "x@y.z".toList, false, false, none⟩] 0
      ⟨"f-part1.csv", "a@b.c".toList, false, false, none⟩
      (TransportResult.httpError "Bad gateway")
      (by decide) (by decide) (by decide)).2.1 1 (by decide)⟩

/-- C6: the delimiter sniffer counts literal occurrences of each
candidate in the fixed set `[',', '\t', ';', '|']` over the sampled
window, returns a candidate of maximal count, resolves ties to the
candidate earliest in the declared order (so comma wins ties), and
returns comma when all counts are zero; it is a total pure function of
the window. -/
theorem claimC6_guessDelimiter (s : List Char) :
    guessDelimiter s ∈ delimCandidates ∧
    (∀ d ∈ delimCandidates,
        countChar d s ≤ countChar (guessDelimiter s) s) ∧
    (∀ d ∈ delimCandidates,
        countChar d s = countChar (guessDelimiter s) s →
        delimCandidates.indexOf (guessDelimiter s) ≤
          delimCandidates.indexOf d) ∧
    ((∀ d ∈ delimCandidates, countChar d s = 0) →
        guessDelimiter s = ',') := by
  have ha : ((countChar ',' s : Int) > (-1 : Int)) := by omega
  simp only [guessDelimiter, delimCandidates, List.foldl_cons, List.foldl_nil]
  rw [if_pos ha]
  split_ifs <;>
    (try dsimp only at *) <;>
    refine ⟨by decide, fun d hd => ?_, fun d hd heq => ?_, fun hz => ?_⟩ <;>
    first
    | (simp only [List.mem_cons, List.not_mem_nil, or_false] at hd
       rcases hd with rfl | rfl | rfl | rfl <;> first | decide | omega)
    | (have hz1 := hz ',' (by decide)
       have hz2 := hz '\t' (by decide)
       have hz3 := hz ';' (by decide)
       have hz4 := hz '|' (by decide)
       first | rfl | (exfalso; omega))

theorem claimC6_witness :
    ';' ∈ delimCandidates ∧
    countChar ';' ("a,b,c,d,e,f;g;h".toList) ≤
      countChar (guessDelimiter ("a,b,c,d,e,f;g;h".toList))
        ("a,b,c,d,e,f;g;h".toList) ∧
    guessDelimiter ("a,b,c,d,e,f;g;h".toList) = ',' :=
  ⟨by decide,
    (claimC6_guessDelimiter ("a,b,c,d,e,f;g;h".toList)).2.1 ';' (by decide),
    by decide⟩

/-- C7: when a part's trimmed recipient e-mail fails the syntactic
pattern, invoking dispatch on that part records the failure reason
`"Enter a valid email address."` on that part and returns without
contacting the external transport, leaving every other part's state
unchanged. -/
theorem claimC7_invalid_email (parts : List SplitPart) (index : Nat)
    (part : SplitPart) (tr : TransportResult)
    (hpart : parts[index]? = some part)
    (hinvalid : matchesEmailRegex (jsTrim part.email) = false) :
    (sendPart parts index tr).2 = false ∧
    (sendPart parts index tr).1[index]? =
      some { part with error := some emailInvalidMsg } ∧
    (∀ j, j ≠ index → (sendPart parts index tr).1[j]? = parts[j]?) := by
  simp only [sendPart, hpart, hinvalid, Bool.false_eq_true, if_false]
  refine ⟨?_, updateAt_getElem_self _ parts index part hpart,
    fun j hj => updateAt_getElem_ne _ parts index j hj⟩
  trivial

theorem claimC7_witness :
    ([(⟨"f-part1.csv", "not-an-email".toList, false, false, none⟩ :
        SplitPart)] : List SplitPart)[0]? =
      some ⟨"f-part1.csv", "not-an-email".toList, false, false, none⟩ ∧
    matchesEmailRegex (jsTrim ("not-an-email".toList)) = false ∧
    (sendPart [⟨"f-part1.csv", "not-an-email".toList, false, false, none⟩]
        0 TransportResult.ok).2 = false :=
  ⟨by decide, by decide,
    (claimC7_invalid_email
      [⟨"f-part1.csv", "not-an-email".toList, false, false, none⟩] 0
      ⟨"f-part1.csv", "not-an-email".toList, false, false, none⟩
      TransportResult.ok (by decide) (by decide)).1⟩

/-- C8: while a part is in the `Sending` state its Send button is
disabled (`disabled={p.sending}`), so a click on that part cannot start
an overlapping dispatch: the click is rejected, no state changes and
the transport is not contacted. -/
theorem claimC8_reject_overlapping (parts : List SplitPart) (i : Nat)
    (p : SplitPart) (tr : TransportResult)
    (hp : parts[i]? = some p) (hsending : p.sending = true) :
    clickSend parts i tr = (parts, false) := by
  simp only [clickSend, sendEnabled, hp, hsending]
  simp

theorem claimC8_witness :
    ([(⟨"f-part1.csv", "a@b.c".toList, true, false, none⟩ : SplitPart)] :
        List SplitPart)[0]? =
      some ⟨"f-part1.csv", "a@b.c".toList, true, false, none⟩ ∧
    clickSend [⟨"f-part1.csv", "a@b.c".toList, true, false, none⟩] 0
        TransportResult.ok =
      ([⟨"f-part1.csv", "a@b.c".toList, true, false, none⟩], false) :=
  ⟨by decide,
    claimC8_reject_overlapping
      [⟨"f-part1.csv", "a@b.c".toList, true, false, none⟩] 0
      ⟨"f-part1.csv", "a@b.c".toList, true, false, none⟩
      TransportResult.ok (by decide) (by decide)⟩

/-- C9: when a file is selected but the part-count input is not a
positive integer (non-integer, zero or negative), `handleSplit` fails
with the validation error `"Agents must be a positive integer."`
before any partitioning occurs, and the registered parts (and their
handles) are left unchanged. -/
theorem claimC9_invalid_part_count (s : RegState) (agents : AgentsInput)
    (hbad : ∀ n : Int, agents = AgentsInput.intVal n → n ≤ 0) :
    handleSplitM true agents s = (s, agentsErrorMsg, false) := by
  cases agents with
  | nonInt => simp [handleSplitM]
  | intVal n =>
    have hn := hbad n rfl
    simp [handleSplitM, hn]

theorem claimC9_witness :
    (∀ n : Int, AgentsInput.intVal 0 = AgentsInput.intVal n → n ≤ 0) ∧
    handleSplitM true (AgentsInput.intVal 0) (RegState.mk [] [] 0) =
      (RegState.mk [] [] 0, agentsErrorMsg, false) :=
  ⟨fun n hn => by cases hn; decide,
    claimC9_invalid_part_count (RegState.mk [] [] 0) (AgentsInput.intVal 0)
      (fun n hn => by cases hn; decide)⟩

/-- C10 (implicit): when no part is registered at the given index
(out of range, or after the registry was cleared), invoking dispatch
for that index is a total no-op: it returns without error, contacts no
transport, and leaves every registered part unchanged. -/
theorem claimC10_missing_part_noop (parts : List SplitPart) (index : Nat)
    (tr : TransportResult) (h : parts[index]? = none) :
    sendPart parts index tr = (parts, false) := by
  simp [sendPart, h]

theorem claimC10_witness :
    (([] : List SplitPart)[0]? = none) ∧
    sendPart ([] : List SplitPart) 0 TransportResult.ok = ([], false) :=
  ⟨by decide,
    claimC10_missing_part_noop ([] : List SplitPart) 0 TransportResult.ok
      (by decide)⟩

end CsvSplitter
